import Mathlib

/-!
Verification development for the certificate-lifecycle engine of the
multicluster-observability-operator (Go package `certificates`).

The Go source is shallowly embedded below.  Machine-level concerns are
modelled as follows:

* Raw byte strings that the code treats opaquely (DER encodings, PEM
  payloads) are modelled symbolically: a PEM-encoded field becomes a
  `List Block`, where a `Block` carries its type string and a symbolic
  DER payload (`Der`) that is either a certificate, a PKCS#1 key, or
  unparsable bytes.  `pem.Decode` of such a field returns the first
  block and the remaining blocks; a field containing no decodable PEM
  block is the empty list, for which `pem.Decode` returns a nil block
  (Go), modelled as `none`.
* `x509.Certificate` becomes the structure `Cert`, keeping exactly the
  fields the code sets and reads.
* Randomness (`rand.Int`, `rsa.GenerateKey`) is modelled by a freshness
  counter threaded through the state: each draw returns the counter and
  increments it.  This realises the source's serial-number and key
  freshness (a new random value per issuance) deterministically.
* The Kubernetes client is modelled as an association-list store of
  `Secret`s plus a write counter; `Get` that finds nothing corresponds
  to `none`, and `Create`/`Update` both replace-or-insert and count one
  write.
* A Go nil-pointer dereference (panic) is modelled as the error value
  `RunErr.nilDeref`; returned Go errors use the other `RunErr`
  constructors.

A second, byte-level model near the end of the file embeds
`removeExpiredCA`, whose behaviour (byte-exact pruning via
remainder-length arithmetic) genuinely depends on byte offsets.
-/

namespace MCO

/-- The x509 certificate fields that the Go code constructs and inspects
(`x509.Certificate` as used in `createCACertificate` / `createCertificate`). -/
structure Cert where
  serial : Nat
  cn : String
  ou : List String
  dnsNames : List String
  ips : List String
  notBefore : Nat
  notAfter : Nat
  isCA : Bool
  ekus : List String
  issuerSerial : Nat
  pubKey : Nat
deriving DecidableEq, Repr

/-- Symbolic DER payload of a PEM block: a certificate, a PKCS#1 RSA
private key, or bytes that fail both parsers. -/
inductive Der where
  | certDer : Cert → Der
  | keyDer : Nat → Der
  | badDer : Nat → Der
deriving DecidableEq, Repr

/-- One PEM block: its type line and its DER payload. -/
structure Block where
  type : String
  der : Der
deriving DecidableEq, Repr

/-- PEM `CERTIFICATE` block holding certificate `c` (as produced by
`pemEncode`). -/
def certBlock (c : Cert) : Block := ⟨"CERTIFICATE", Der.certDer c⟩

/-- PEM `RSA PRIVATE KEY` block holding key `k` (as produced by
`pemEncode`). -/
def keyBlock (k : Nat) : Block := ⟨"RSA PRIVATE KEY", Der.keyDer k⟩

/-- `x509.ParsePKCS1PrivateKey` on a block's DER payload. -/
def parsePKCS1 : Der → Option Nat
  | Der.keyDer k => some k
  | _ => none

/-- `x509.ParseCertificate` / `x509.ParseCertificates` (first result) on a
block's DER payload. -/
def parseCert : Der → Option Cert
  | Der.certDer c => some c
  | _ => none

/-- `pemEncode(cert, key)`: encodes the certificate as a `CERTIFICATE`
block and the key as an `RSA PRIVATE KEY` block. -/
def pemEncode (cert : Cert) (key : Nat) : List Block × List Block :=
  ([certBlock cert], [keyBlock key])

/-- Well-known secret name `config.ServerCACerts`. -/
def serverCACerts : String := "observability-server-ca-certs"

/-- Well-known secret name `config.ClientCACerts`. -/
def clientCACerts : String := "observability-client-ca-certs"

/-- Well-known secret name `config.ServerCerts`. -/
def serverCerts : String := "observability-server-certs"

/-- Well-known secret name `config.GrafanaCerts`. -/
def grafanaCerts : String := "observability-grafana-certs"

/-- Constant `serverCACertifcateCN` (typo preserved from the source). -/
def serverCACertifcateCN : String := "observability-server-ca-certificate"

/-- Constant `clientCACertificateCN`. -/
def clientCACertificateCN : String := "observability-client-ca-certificate"

/-- Constant `config.ServerCertCN`. -/
def serverCertificateCN : String := "observability-server-certificate"

/-- Constant `config.GrafanaCN`. -/
def grafanaCertificateCN : String := "grafana"

/-- The backup label key/value pair `config.BackupLabelName: config.BackupLabelValue`. -/
def backupLabel : String := "cluster.open-cluster-management.io/backup"

/-- A Kubernetes TLS secret as used by this package: the three data
fields `ca.crt`, `tls.crt`, `tls.key` (each a concatenation of PEM
blocks) plus its labels. -/
structure Secret where
  caCrt : List Block
  tlsCrt : List Block
  tlsKey : List Block
  labels : List String
deriving DecidableEq, Repr

/-- The world state threaded through the embedded functions: the secret
store (keyed by secret name), the freshness counter standing for the
entropy source, and a count of store writes performed. -/
structure St where
  store : List (String × Secret)
  gen : Nat
  writes : Nat
deriving DecidableEq, Repr

/-- `client.Get` on the secret store. -/
def getSec : List (String × Secret) → String → Option Secret
  | [], _ => none
  | (m, s) :: rest, n => if m = n then some s else getSec rest n

/-- `client.Create` / `client.Update`: replace-or-insert a secret. -/
def setSec : List (String × Secret) → String → Secret → List (String × Secret)
  | [], n, sec => [(n, sec)]
  | (m, s) :: rest, n, sec =>
    if m = n then (n, sec) :: rest else (m, s) :: setSec rest n sec

/-- Outcomes of the embedded functions that Go reports as errors or
panics: `nilDeref` is a nil-pointer dereference (runtime panic), the
others are returned `error` values. -/
inductive RunErr where
  | nilDeref
  | getFailed
  | parseFailed
  | hostDiscovery
deriving DecidableEq, Repr

/-- `createCACertificate(cn, caKey)`: draws a fresh serial number, reuses
`caKey` when non-nil and otherwise generates a fresh key, and builds the
self-signed CA certificate (CA validity is five leaf durations).
Returns (key bytes, certificate, advanced freshness counter). -/
def createCACertificate (now dur : Nat) (cn : String) (caKey : Option Nat) (g : Nat) :
    Nat × Cert × Nat :=
  let sn := g
  let key := caKey.getD (g + 1)
  let g' := if caKey.isSome then g + 1 else g + 2
  (key,
   { serial := sn, cn := cn, ou := [], dnsNames := [], ips := [],
     notBefore := now, notAfter := now + 5 * dur, isCA := true,
     ekus := [], issuerSerial := sn, pubKey := key },
   g')

/-- `createCertificate(isServer, cn, ou, dns, ips, caCert, caKey, key)`:
draws a fresh serial, builds the leaf certificate and reuses `key` when
non-nil (otherwise generates a fresh one), signing over `caCert`.

The DNS-name assignment mirrors the Go slice manipulation
`dns = append(dns[:1], dns[0:]...); dns[0] = cn` for a non-nil `dns`
of length ≥ 1: the Go `append` yields `take 1 dns ++ dns` (both the
reallocating and the in-place aliasing execution produce this, since
the runtime copies with memmove semantics), after which index 0 is
overwritten with `cn`.  A nil `dns` yields `[cn]`. -/
def createCertificate (now dur : Nat) (isServer : Bool) (cn : String)
    (ou dns ips : Option (List String)) (caCert : Cert) (caKey : Nat)
    (key : Option Nat) (g : Nat) : Nat × Cert × Nat :=
  let sn := g
  let ekus := if isServer then ["ServerAuth"] else ["ClientAuth"]
  let dnsNames := match dns with
    | some d => (d.take 1 ++ d).set 0 cn
    | none => [cn]
  let keyUsed := key.getD (g + 1)
  let g' := if key.isSome then g + 1 else g + 2
  let _ := caKey
  (keyUsed,
   { serial := sn, cn := cn, ou := ou.getD [], dnsNames := dnsNames,
     ips := ips.getD [], notBefore := now, notAfter := now + dur, isCA := false,
     ekus := ekus, issuerSerial := caCert.serial, pubKey := keyUsed },
   g')

/-- Modelled from the spec: `mcoutil.AddBackupLabelToSecretObj` is code
of this repository that is not under `src/`.  Per the spec, the
no-change paths only "tag the bundle for retention/backup bookkeeping —
an external concern" and every `Ensure*` call "must be safe to call
repeatedly with no side effects when nothing needs to change": the
helper adds the backup label (and writes the secret back) only when the
label is absent. -/
def addBackupLabelToSecretObj (name : String) (sec : Secret) (st : St) : St :=
  if backupLabel ∈ sec.labels then st
  else
    { st with
      store := setSec st.store name { sec with labels := backupLabel :: sec.labels },
      writes := st.writes + 1 }

/-- `createCASecret(c, scheme, mco, isRenew, name, cn)`.  Absent secret:
build a self-signed CA and create the secret (`ca.crt` = `tls.crt` =
new cert, `tls.key` = new key), reporting `true`.  Present and not
renewing: backup-label bookkeeping only, reporting `false`.  Present
and renewing: decode the stored key (a nil block is dereferenced —
`RunErr.nilDeref`), fall back to a fresh key when PKCS#1 parsing fails,
build a new CA certificate, set `ca.crt` to it, prepend its PEM to
`tls.crt`, replace `tls.key`, update, reporting `true`. -/
def createCASecret (now dur : Nat) (isRenew : Bool) (name cn : String) (st : St) :
    Except RunErr Bool × St :=
  match getSec st.store name with
  | none =>
    let out := createCACertificate now dur cn none st.gen
    let sec : Secret :=
      { caCrt := [certBlock out.2.1], tlsCrt := [certBlock out.2.1],
        tlsKey := [keyBlock out.1], labels := [backupLabel] }
    (Except.ok true,
     { store := setSec st.store name sec, gen := out.2.2, writes := st.writes + 1 })
  | some caSecret =>
    if !isRenew then
      (Except.ok false, addBackupLabelToSecretObj name caSecret st)
    else
      match caSecret.tlsKey.head? with
      | none => (Except.error RunErr.nilDeref, st)
      | some b =>
        let caKey := parsePKCS1 b.der
        let out := createCACertificate now dur cn caKey st.gen
        let sec' :=
          { caSecret with
            caCrt := [certBlock out.2.1],
            tlsCrt := certBlock out.2.1 :: caSecret.tlsCrt,
            tlsKey := [keyBlock out.1] }
        (Except.ok true,
         { store := setSec st.store name sec', gen := out.2.2, writes := st.writes + 1 })

/-- `getCA(c, isServer)`: fetch the CA secret for the role, decode the
first PEM block of `tls.crt` (nil block dereferenced), keep exactly that
first block's bytes as `caCertBytes`
(`tls.crt[:len(tls.crt)-len(rest)]`), parse it, and parse the key.
Returns (CA certificate, CA key, first-block bytes). -/
def getCA (st : St) (isServer : Bool) : Except RunErr (Cert × Nat × List Block) :=
  let caCertName := if isServer then serverCACerts else clientCACerts
  match getSec st.store caCertName with
  | none => Except.error RunErr.getFailed
  | some caSecret =>
    match caSecret.tlsCrt.head? with
    | none => Except.error RunErr.nilDeref
    | some block1 =>
      let caCertBytes := [block1]
      match parseCert block1.der with
      | none => Except.error RunErr.parseFailed
      | some caCert =>
        match caSecret.tlsKey.head? with
        | none => Except.error RunErr.nilDeref
        | some block2 =>
          match parsePKCS1 block2.der with
          | none => Except.error RunErr.parseFailed
          | some caKey => Except.ok (caCert, caKey, caCertBytes)

/-- `createCertSecret(c, scheme, mco, isRenew, name, isServer, cn, ou,
dns, ips)`.  Absent: issue a leaf against `getCA` and create the secret
with `ca.crt := caCertBytes`.  Present with `name == serverCerts` and
`!isRenew`: drift check — a missing PEM block is skipped; a block whose
certificate fails to parse sets renewal and then the loop over `dns`
dereferences the nil certificate (`RunErr.nilDeref`) unless `dns` is
empty; otherwise renewal is set iff some required name is not contained
in the certificate's DNS names.  Present and finally not renewing:
backup-label bookkeeping only.  Present and renewing: `getCA`, decode
stored key (nil block dereferenced, PKCS#1 failure falls back to a
fresh key), issue a new leaf, overwrite all three data fields, update. -/
def createCertSecret (now dur : Nat) (isRenew : Bool) (name : String) (isServer : Bool)
    (cn : String) (ou dns ips : Option (List String)) (st : St) :
    Except RunErr Unit × St :=
  match getSec st.store name with
  | none =>
    match getCA st isServer with
    | Except.error e => (Except.error e, st)
    | Except.ok (caCert, caKey, caCertBytes) =>
      let out := createCertificate now dur isServer cn ou dns ips caCert caKey none st.gen
      let sec : Secret :=
        { caCrt := caCertBytes, tlsCrt := [certBlock out.2.1],
          tlsKey := [keyBlock out.1], labels := [backupLabel] }
      (Except.ok (),
       { store := setSec st.store name sec, gen := out.2.2, writes := st.writes + 1 })
  | some crtSecret =>
    let drift : Except RunErr Bool :=
      if name = serverCerts ∧ isRenew = false then
        match crtSecret.tlsCrt.head? with
        | none => Except.ok isRenew
        | some block =>
          match parseCert block.der with
          | none =>
            if (dns.getD []).isEmpty then Except.ok true
            else Except.error RunErr.nilDeref
          | some serverCrt =>
            Except.ok (isRenew || (dns.getD []).any (fun d => !serverCrt.dnsNames.contains d))
      else Except.ok isRenew
    match drift with
    | Except.error e => (Except.error e, st)
    | Except.ok isRenew2 =>
      if !isRenew2 then
        (Except.ok (), addBackupLabelToSecretObj name crtSecret st)
      else
        match getCA st isServer with
        | Except.error e => (Except.error e, st)
        | Except.ok (caCert, caKey, caCertBytes) =>
          match crtSecret.tlsKey.head? with
          | none => (Except.error RunErr.nilDeref, st)
          | some kb =>
            let crtkey := parsePKCS1 kb.der
            let out := createCertificate now dur isServer cn ou dns ips caCert caKey crtkey st.gen
            let sec' :=
              { crtSecret with
                caCrt := caCertBytes, tlsCrt := [certBlock out.2.1],
                tlsKey := [keyBlock out.1] }
            (Except.ok (),
             { store := setSec st.store name sec', gen := out.2.2, writes := st.writes + 1 })

/-- `getHosts(c, ingressCtlCrdExists)`: the primary internal service
name, plus the external route when the ingress-controller CRD exists.
The route lookup (`config.GetObsAPIHost`, an external collaborator) is
supplied as `obsAPIHost`; `none` is a discovery failure, which aborts. -/
def getHosts (ingressCtlCrdExists : Bool) (obsAPISvc : String) (obsAPIHost : Option String) :
    Except RunErr (List String) :=
  let hosts := [obsAPISvc]
  if ingressCtlCrdExists then
    match obsAPIHost with
    | none => Except.error RunErr.hostDiscovery
    | some url => Except.ok (hosts ++ [url])
  else Except.ok hosts

/-- `CreateObservabilityCerts(c, scheme, mco, ingressCtlCrdExists)`:
ensure the server CA, then the client CA, then discover hosts, then
ensure the server leaf (forced iff the server CA was modified, with the
hosts as required DNS names) and the grafana leaf (forced iff the
client CA was modified, with no DNS list).  Any error aborts the pass. -/
def CreateObservabilityCerts (now dur : Nat) (ingressCtlCrdExists : Bool)
    (obsAPISvc : String) (obsAPIHost : Option String) (st : St) :
    Except RunErr Unit × St :=
  match createCASecret now dur false serverCACerts serverCACertifcateCN st with
  | (Except.error e, st1) => (Except.error e, st1)
  | (Except.ok serverCrtUpdated, st1) =>
    match createCASecret now dur false clientCACerts clientCACertificateCN st1 with
    | (Except.error e, st2) => (Except.error e, st2)
    | (Except.ok clientCrtUpdated, st2) =>
      match getHosts ingressCtlCrdExists obsAPISvc obsAPIHost with
      | Except.error e => (Except.error e, st2)
      | Except.ok hosts =>
        match createCertSecret now dur serverCrtUpdated serverCerts true
            serverCertificateCN none (some hosts) none st2 with
        | (Except.error e, st3) => (Except.error e, st3)
        | (Except.ok _, st3) =>
          createCertSecret now dur clientCrtUpdated grafanaCerts false
            grafanaCertificateCN none none none st3

/-!
Byte-level model of `removeExpiredCA`.  This function's contract is about
raw bytes (surviving blocks stay byte-identical, the write decision
compares byte lengths), so here a secret field is a `List Nat` of bytes.
PEM framing is modelled concretely: a block's encoding is
`45 :: n :: der` (45 is the ASCII dash that opens a PEM armor line,
`n` the payload length); the symbolic DER of a certificate that parses
with expiry `t` is `[1, t]`, anything else fails `x509.ParseCertificates`.
-/

/-- A secret in the byte-level model: the three data fields as raw bytes. -/
structure BSecret where
  caCrt : List Nat
  tlsCrt : List Nat
  tlsKey : List Nat
deriving DecidableEq, Repr

/-- `pem.Decode` in the byte model: on `45 :: n :: rest` with `n` bytes
of payload available, return (payload, remainder); otherwise no block is
found (`none`, Go's nil block with the whole input as remainder). -/
def pemDecodeB : List Nat → Option (List Nat × List Nat)
  | 45 :: n :: rest =>
    if n ≤ rest.length then some (rest.take n, rest.drop n) else none
  | _ => none

/-- `x509.ParseCertificates` in the byte model: a valid certificate DER
is `[1, t]` and yields its `notAfter` value `t`. -/
def parseCertsB : List Nat → Option Nat
  | [1, t] => some t
  | _ => none

/-- The PEM encoding of payload `der` in the byte model. -/
def encodeBlockB (der : List Nat) : List Nat := 45 :: der.length :: der

/-- A chain: the concatenation of the PEM encodings of the payloads. -/
def chainBytes (ders : List (List Nat)) : List Nat :=
  (ders.map encodeBlockB).flatten

/-- The `for` loop of `removeExpiredCA`: `data` is the original field,
`restData` the not-yet-scanned suffix, `acc` the retained bytes so far.
Each iteration records `index = len(data) - len(restData)`, decodes one
block (a nil block is dereferenced: `none`), parses it, drops it when
parsing fails or `time.Now().After(notAfter)`, and otherwise appends the
original byte range `data[index : len(data)-len(restData')]`. -/
def pruneLoop (now : Nat) (data : List Nat) : List Nat → List Nat → Option (List Nat)
  | 45 :: n :: rest, acc =>
    if h : n ≤ rest.length then
      let index := data.length - (rest.length + 2)
      let der := rest.take n
      let restData' := rest.drop n
      let removeFlag := match parseCertsB der with
        | none => true
        | some notAfter => decide (notAfter < now)
      let acc' := if removeFlag then acc
        else acc ++ (data.take (data.length - restData'.length)).drop index
      if restData'.length = 0 then some acc'
      else pruneLoop now data restData' acc'
    else none
  | _, _ => none
termination_by l _ => l.length
decreasing_by
  simp only [List.length_drop, List.length_cons]
  omega

/-- `removeExpiredCA(c, name)` on a present secret: decode the first
block of `tls.crt` and keep its byte range unconditionally, scan the
remainder with the loop, and update the secret iff the resulting byte
length differs from the original.  Returns the persisted secret and
whether an update was issued; `none` is the nil-block panic. -/
def removeExpiredCA (now : Nat) (caSecret : BSecret) : Option (BSecret × Bool) :=
  let data := caSecret.tlsCrt
  let firstRest := match pemDecodeB data with
    | some x => x.2
    | none => data
  let firstKeep := data.take (data.length - firstRest.length)
  let newCrt? :=
    if firstRest.length > 0 then pruneLoop now data firstRest firstKeep
    else some firstKeep
  match newCrt? with
  | none => none
  | some newCrt =>
    if data.length ≠ newCrt.length then
      some ({ caSecret with tlsCrt := newCrt }, true)
    else some (caSecret, false)

/-- The keep/drop decision of the pruning loop, per block payload: kept
iff it parses and its `notAfter` has not passed. -/
def keepSeg (now : Nat) (der : List Nat) : Bool :=
  match parseCertsB der with
  | none => false
  | some t => decide (now ≤ t)

theorem chainBytes_cons (d : List Nat) (ds : List (List Nat)) :
    chainBytes (d :: ds) = 45 :: d.length :: (d ++ chainBytes ds) := by
  simp [chainBytes, encodeBlockB]

theorem chainBytes_eq_nil {ds : List (List Nat)} : chainBytes ds = [] ↔ ds = [] := by
  cases ds with
  | nil => simp [chainBytes]
  | cons d t => simp [chainBytes_cons]

theorem pruneLoop_chain (now : Nat) :
    ∀ (ds : List (List Nat)), ds ≠ [] → ∀ (pre acc : List Nat),
      pruneLoop now (pre ++ chainBytes ds) (chainBytes ds) acc
        = some (acc ++ chainBytes (ds.filter (keepSeg now))) := by
  intro ds
  induction ds with
  | nil => exact fun h => absurd rfl h
  | cons d rest ih =>
    intro _ pre acc
    rw [chainBytes_cons]
    have hle : d.length ≤ (d ++ chainBytes rest).length := by
      simp [List.length_append]
    have htk : (d ++ chainBytes rest).take d.length = d := List.take_left d _
    have hdr : (d ++ chainBytes rest).drop d.length = chainBytes rest := List.drop_left d _
    have hdata : pre ++ (45 :: d.length :: (d ++ chainBytes rest))
        = (pre ++ (45 :: d.length :: d)) ++ chainBytes rest := by simp
    have hidx : (pre ++ (45 :: d.length :: (d ++ chainBytes rest))).length
        - ((d ++ chainBytes rest).length + 2) = pre.length := by
      simp [List.length_append]
    have htot : (pre ++ (45 :: d.length :: (d ++ chainBytes rest))).length
        - (chainBytes rest).length = pre.length + 2 + d.length := by
      simp [List.length_append]; omega
    have hseg : ((pre ++ (45 :: d.length :: (d ++ chainBytes rest))).take
          (pre.length + 2 + d.length)).drop pre.length = 45 :: d.length :: d := by
      rw [hdata]
      have hl : pre.length + 2 + d.length = (pre ++ (45 :: d.length :: d)).length := by
        simp [List.length_append]; omega
      rw [hl, List.take_left, List.drop_left]
    simp only [pruneLoop, hle, dif_pos, htk, hdr, hidx, htot, hseg]
    rcases Decidable.em (rest = []) with hrest | hrest
    · subst hrest
      simp only [chainBytes, List.map_nil, List.flatten_nil, List.length_nil, if_true]
      cases hp : parseCertsB d with
      | none => simp [hp, keepSeg, chainBytes, encodeBlockB]
      | some t =>
        by_cases ht : t < now
        · simp [hp, ht, keepSeg, chainBytes, encodeBlockB, Nat.not_le.mpr ht]
        · simp [hp, ht, keepSeg, chainBytes, encodeBlockB, Nat.le_of_not_lt ht]
    · have hlen0 : ¬ (chainBytes rest).length = 0 := by
        simp [List.length_eq_zero, chainBytes_eq_nil, hrest]
      simp only [hlen0, if_false]
      rw [hdata]
      cases hp : parseCertsB d with
      | none =>
        simp only [hp]
        rw [if_pos trivial, ih hrest (pre ++ (45 :: d.length :: d)) acc]
        simp [keepSeg, hp, List.filter_cons]
      | some t =>
        by_cases ht : t < now
        · simp only [hp, decide_eq_true ht]
          rw [if_pos trivial, ih hrest (pre ++ (45 :: d.length :: d)) acc]
          have : keepSeg now d = false := by
            simp [keepSeg, hp, Nat.not_le.mpr ht]
          simp [List.filter_cons, this]
        · simp only [hp, decide_eq_false ht]
          rw [if_neg (by simp), ih hrest (pre ++ (45 :: d.length :: d))
            (acc ++ (45 :: d.length :: d))]
          have : keepSeg now d = true := by
            simp [keepSeg, hp, Nat.le_of_not_lt ht]
          simp [List.filter_cons, this, chainBytes_cons, encodeBlockB, chainBytes]

theorem chainBytes_cons' (d : List Nat) (ds : List (List Nat)) :
    chainBytes (d :: ds) = encodeBlockB d ++ chainBytes ds := by
  simp [chainBytes]

theorem chainBytes_filter_length_le (p : List Nat → Bool) (ds : List (List Nat)) :
    (chainBytes (ds.filter p)).length ≤ (chainBytes ds).length := by
  induction ds with
  | nil => simp
  | cons d t ih =>
    rw [List.filter_cons, chainBytes_cons']
    by_cases hp : p d
    · simp only [hp, if_true, chainBytes_cons']
      simp only [List.length_append]
      omega
    · simp only [hp, Bool.false_eq_true, if_false]
      simp only [List.length_append]
      omega

theorem chainBytes_filter_of_length_eq (p : List Nat → Bool) (ds : List (List Nat))
    (h : (chainBytes (ds.filter p)).length = (chainBytes ds).length) :
    ds.filter p = ds := by
  induction ds with
  | nil => simp
  | cons d t ih =>
    rw [List.filter_cons] at h ⊢
    by_cases hp : p d
    · simp only [hp, if_true] at h ⊢
      rw [chainBytes_cons', chainBytes_cons'] at h
      simp only [List.length_append] at h
      rw [ih (by omega)]
    · exfalso
      simp only [hp, Bool.false_eq_true, if_false] at h
      have hle := chainBytes_filter_length_le p t
      rw [chainBytes_cons'] at h
      simp only [List.length_append, encodeBlockB, List.length_cons] at h hle
      omega

theorem removeExpiredCA_chain (now : Nat) (a k d₀ : List Nat) (ds : List (List Nat)) :
    removeExpiredCA now ⟨a, chainBytes (d₀ :: ds), k⟩
      = some (⟨a, encodeBlockB d₀ ++ chainBytes (ds.filter (keepSeg now)), k⟩,
          decide ((chainBytes (d₀ :: ds)).length
            ≠ (encodeBlockB d₀ ++ chainBytes (ds.filter (keepSeg now))).length)) := by
  have hle : d₀.length ≤ (d₀ ++ chainBytes ds).length := by
    simp [List.length_append]
  have hdr : (d₀ ++ chainBytes ds).drop d₀.length = chainBytes ds := List.drop_left d₀ _
  have hdata : chainBytes (d₀ :: ds) = encodeBlockB d₀ ++ chainBytes ds :=
    chainBytes_cons' d₀ ds
  have htk : (chainBytes (d₀ :: ds)).take
      ((chainBytes (d₀ :: ds)).length - (chainBytes ds).length) = encodeBlockB d₀ := by
    rw [hdata]
    have h1 : (encodeBlockB d₀ ++ chainBytes ds).length - (chainBytes ds).length
        = (encodeBlockB d₀).length := by
      simp [List.length_append]
    rw [h1, List.take_left]
  rcases Decidable.em (ds = []) with hds | hds
  · subst hds
    simp only [removeExpiredCA, chainBytes_cons, chainBytes, List.map_nil,
      List.flatten_nil, List.append_nil]
    simp [pemDecodeB, encodeBlockB]
  · have hne : chainBytes ds ≠ [] := by
      simpa [chainBytes_eq_nil] using hds
    have hpos : 0 < (chainBytes ds).length := List.length_pos.mpr hne
    have hfr : (match pemDecodeB (chainBytes (d₀ :: ds)) with
        | some x => x.2
        | none => chainBytes (d₀ :: ds)) = chainBytes ds := by
      rw [chainBytes_cons]
      simp [pemDecodeB, hle, hdr]
    simp only [removeExpiredCA, hfr, htk, gt_iff_lt, hpos, if_true]
    rw [hdata, pruneLoop_chain now ds hds (encodeBlockB d₀) (encodeBlockB d₀)]
    by_cases hlen : (encodeBlockB d₀ ++ chainBytes ds).length
        = (encodeBlockB d₀ ++ chainBytes (ds.filter (keepSeg now))).length
    · have hfix : ds.filter (keepSeg now) = ds := by
        apply chainBytes_filter_of_length_eq
        simp only [List.length_append] at hlen
        omega
      rw [hfix]
      simp
    · have hlen' : (chainBytes ds).length ≠ (chainBytes (ds.filter (keepSeg now))).length := by
        simp only [List.length_append] at hlen
        omega
      simp [hlen']

theorem getSec_setSec_self (s : List (String × Secret)) (n : String) (sec : Secret) :
    getSec (setSec s n sec) n = some sec := by
  induction s with
  | nil => simp [setSec, getSec]
  | cons p rest ih =>
    obtain ⟨m, t⟩ := p
    by_cases h : m = n
    · simp [setSec, getSec, h]
    · simp [setSec, getSec, h, ih]

theorem getSec_setSec_ne (s : List (String × Secret)) {m n : String} (sec : Secret)
    (h : m ≠ n) : getSec (setSec s n sec) m = getSec s m := by
  induction s with
  | nil => simp [setSec, getSec, Ne.symm h]
  | cons p rest ih =>
    obtain ⟨q, t⟩ := p
    by_cases hq : q = n
    · subst hq
      simp [setSec, getSec, Ne.symm h]
    · by_cases hqm : q = m
      · simp [setSec, getSec, hq, hqm, h]
      · simp [setSec, getSec, hq, hqm, ih]

theorem createCASecret_absent (now dur : Nat) (name cn : String) (st : St)
    (h : getSec st.store name = none) :
    createCASecret now dur false name cn st
      = (Except.ok true,
         { store := setSec st.store name
             { caCrt := [certBlock (createCACertificate now dur cn none st.gen).2.1],
               tlsCrt := [certBlock (createCACertificate now dur cn none st.gen).2.1],
               tlsKey := [keyBlock (createCACertificate now dur cn none st.gen).1],
               labels := [backupLabel] },
           gen := (createCACertificate now dur cn none st.gen).2.2,
           writes := st.writes + 1 }) := by
  simp [createCASecret, h]

theorem createCASecret_present_norenew (now dur : Nat) (name cn : String) (st : St)
    (sec : Secret) (h : getSec st.store name = some sec) :
    createCASecret now dur false name cn st
      = (Except.ok false, addBackupLabelToSecretObj name sec st) := by
  simp [createCASecret, h]

theorem createCASecret_renew_eq (now dur : Nat) (name cn : String) (st : St)
    (sec : Secret) (b : Block) (h : getSec st.store name = some sec)
    (hk : sec.tlsKey.head? = some b) :
    createCASecret now dur true name cn st
      = (Except.ok true,
         { store := setSec st.store name
             { sec with
               caCrt := [certBlock
                 (createCACertificate now dur cn (parsePKCS1 b.der) st.gen).2.1],
               tlsCrt := certBlock
                 (createCACertificate now dur cn (parsePKCS1 b.der) st.gen).2.1
                   :: sec.tlsCrt,
               tlsKey := [keyBlock
                 (createCACertificate now dur cn (parsePKCS1 b.der) st.gen).1] },
           gen := (createCACertificate now dur cn (parsePKCS1 b.der) st.gen).2.2,
           writes := st.writes + 1 }) := by
  simp [createCASecret, h, hk]

theorem getCA_eq (st : St) (isServer : Bool) (casec : Secret) (b1 b2 : Block)
    (cac : Cert) (cak : Nat)
    (hg : getSec st.store (if isServer then serverCACerts else clientCACerts) = some casec)
    (h1 : casec.tlsCrt.head? = some b1) (h2 : parseCert b1.der = some cac)
    (h3 : casec.tlsKey.head? = some b2) (h4 : parsePKCS1 b2.der = some cak) :
    getCA st isServer = Except.ok (cac, cak, [b1]) := by
  simp [getCA, hg, h1, h2, h3, h4]

theorem createCertSecret_absent_eq (now dur : Nat) (name : String) (isServer : Bool)
    (cn : String) (ou dns ips : Option (List String)) (st : St)
    (caCert : Cert) (caKey : Nat) (caCertBytes : List Block)
    (h : getSec st.store name = none)
    (hca : getCA st isServer = Except.ok (caCert, caKey, caCertBytes)) :
    createCertSecret now dur false name isServer cn ou dns ips st
      = (Except.ok (),
         { store := setSec st.store name
             { caCrt := caCertBytes,
               tlsCrt := [certBlock
                 (createCertificate now dur isServer cn ou dns ips caCert caKey none st.gen).2.1],
               tlsKey := [keyBlock
                 (createCertificate now dur isServer cn ou dns ips caCert caKey none st.gen).1],
               labels := [backupLabel] },
           gen := (createCertificate now dur isServer cn ou dns ips caCert caKey none st.gen).2.2,
           writes := st.writes + 1 }) := by
  simp [createCertSecret, h, hca]

theorem createCertSecret_forceRenew_eq (now dur : Nat) (name : String) (isServer : Bool)
    (cn : String) (ou dns ips : Option (List String)) (st : St) (sec : Secret)
    (caCert : Cert) (caKey : Nat) (caCertBytes : List Block) (kb : Block)
    (h : getSec st.store name = some sec)
    (hca : getCA st isServer = Except.ok (caCert, caKey, caCertBytes))
    (hkb : sec.tlsKey.head? = some kb) :
    createCertSecret now dur true name isServer cn ou dns ips st
      = (Except.ok (),
         { store := setSec st.store name
             { sec with
               caCrt := caCertBytes,
               tlsCrt := [certBlock
                 (createCertificate now dur isServer cn ou dns ips caCert caKey
                   (parsePKCS1 kb.der) st.gen).2.1],
               tlsKey := [keyBlock
                 (createCertificate now dur isServer cn ou dns ips caCert caKey
                   (parsePKCS1 kb.der) st.gen).1] },
           gen := (createCertificate now dur isServer cn ou dns ips caCert caKey
             (parsePKCS1 kb.der) st.gen).2.2,
           writes := st.writes + 1 }) := by
  simp [createCertSecret, h, hca, hkb]

theorem createCASecret_preserves (now dur : Nat) (isRenew : Bool) (name cn : String)
    (st : St) {m : String} (hm : m ≠ name) :
    getSec ((createCASecret now dur isRenew name cn st).2).store m = getSec st.store m := by
  cases hg : getSec st.store name with
  | none => simp [createCASecret, hg, getSec_setSec_ne _ _ hm]
  | some sec =>
    cases isRenew with
    | false =>
      by_cases hl : backupLabel ∈ sec.labels
      · simp [createCASecret, hg, addBackupLabelToSecretObj, hl]
      · simp [createCASecret, hg, addBackupLabelToSecretObj, hl, getSec_setSec_ne _ _ hm]
    | true =>
      cases hk : sec.tlsKey.head? with
      | none => simp [createCASecret, hg, hk]
      | some b => simp [createCASecret, hg, hk, getSec_setSec_ne _ _ hm]

theorem createCASecret_false_ok (now dur : Nat) (name cn : String) (st : St) :
    ∃ b, createCASecret now dur false name cn st
      = (Except.ok b, (createCASecret now dur false name cn st).2) := by
  cases hg : getSec st.store name with
  | none => exact ⟨true, by simp [createCASecret, hg]⟩
  | some sec => exact ⟨false, by simp [createCASecret, hg]⟩

theorem name_ne_sCA_cCA : serverCACerts ≠ clientCACerts := by decide

theorem name_ne_sC_sCA : serverCerts ≠ serverCACerts := by decide

theorem name_ne_sC_cCA : serverCerts ≠ clientCACerts := by decide

theorem name_ne_g_sCA : grafanaCerts ≠ serverCACerts := by decide

theorem name_ne_g_cCA : grafanaCerts ≠ clientCACerts := by decide

theorem name_ne_g_sC : grafanaCerts ≠ serverCerts := by decide

/-- C2: for every stored CA chain of concatenated PEM blocks, pruning
retains the first block unconditionally and byte-identically (its payload
`d₀` is arbitrary — never parsed), and each subsequent block survives iff
it parses and its `notAfter` is not before the current time (`keepSeg`);
the surviving blocks keep their original byte encoding and original
relative order (the result is the concatenation of the retained
segments' original bytes, in order). -/
theorem removeExpiredCA_selective_pruning (now : Nat) (a k d₀ : List Nat)
    (ds : List (List Nat)) :
    ∃ wrote, removeExpiredCA now ⟨a, chainBytes (d₀ :: ds), k⟩
      = some (⟨a, encodeBlockB d₀ ++ chainBytes (ds.filter (keepSeg now)), k⟩, wrote) :=
  ⟨_, removeExpiredCA_chain now a k d₀ ds⟩

/-- C9: pruning issues a store write iff the resulting chain's byte
length differs from the original chain's byte length, and it never
touches the secret's active-certificate (`ca.crt`) or private-key
(`tls.key`) fields. -/
theorem removeExpiredCA_write_iff_shrunk (now : Nat) (a k d₀ : List Nat)
    (ds : List (List Nat)) :
    ∃ sec' wrote, removeExpiredCA now ⟨a, chainBytes (d₀ :: ds), k⟩ = some (sec', wrote)
      ∧ (wrote = true ↔ sec'.tlsCrt.length ≠ (chainBytes (d₀ :: ds)).length)
      ∧ sec'.caCrt = a ∧ sec'.tlsKey = k := by
  refine ⟨_, _, removeExpiredCA_chain now a k d₀ ds, ?_, rfl, rfl⟩
  simpa [decide_eq_true_eq] using ne_comm

example : removeExpiredCA 10 ⟨[7], chainBytes [[1,20],[1,5],[1,30]], [9]⟩
    = some (⟨[7], [45,2,1,20,45,2,1,30], [9]⟩, true) := by
  rw [removeExpiredCA_chain]; decide

example : removeExpiredCA 10 ⟨[7], chainBytes [[1,20],[9,9,9],[1,30]], [9]⟩
    = some (⟨[7], [45,2,1,20,45,2,1,30], [9]⟩, true) := by
  rw [removeExpiredCA_chain]; decide

example : removeExpiredCA 10 ⟨[7], chainBytes [[1,3],[1,20]], [9]⟩
    = some (⟨[7], [45,2,1,3,45,2,1,20], [9]⟩, false) := by
  rw [removeExpiredCA_chain]; decide

/-- C1: for a leaf issuance with a non-empty caller-supplied DNS list,
the certificate's DNS-name list is exactly `commonName` followed by the
entire supplied list in original order (length = supplied + 1), with no
deduplication (if `commonName` occurs in the supplied list it appears at
least twice); with no DNS list supplied it is exactly `[commonName]`. -/
theorem createCertificate_dns_policy (now dur : Nat) (isServer : Bool) (cn : String)
    (ou ips : Option (List String)) (caCert : Cert) (caKey : Nat) (key : Option Nat)
    (g : Nat) (d : List String) (hd : d ≠ []) :
    (createCertificate now dur isServer cn ou (some d) ips caCert caKey key g).2.1.dnsNames
        = cn :: d
      ∧ (createCertificate now dur isServer cn ou (some d) ips
          caCert caKey key g).2.1.dnsNames.length = d.length + 1
      ∧ (cn ∈ d → 2 ≤ (createCertificate now dur isServer cn ou (some d) ips
          caCert caKey key g).2.1.dnsNames.count cn)
      ∧ (createCertificate now dur isServer cn ou none ips caCert caKey key g).2.1.dnsNames
        = [cn] := by
  obtain ⟨h, t, rfl⟩ : ∃ h t, d = h :: t := by
    cases d with
    | nil => exact absurd rfl hd
    | cons h t => exact ⟨h, t, rfl⟩
  refine ⟨?_, ?_, ?_, ?_⟩
  · simp [createCertificate]
  · simp [createCertificate]
  · intro hmem
    have hpos : 0 < (h :: t).count cn := List.count_pos_iff.mpr hmem
    simp only [createCertificate, List.take_succ_cons, List.take_zero, List.cons_append,
      List.nil_append, List.set_cons_zero, List.count_cons_self]
    omega
  · simp [createCertificate]

/-- Witness for C1 at a concrete input where the common name also occurs
in the supplied DNS list. -/
theorem createCertificate_dns_policy_witness :
    (["cn", "a"] : List String) ≠ []
      ∧ ((createCertificate 0 1 true "cn" none (some ["cn", "a"]) none
            ⟨5, "i", [], [], [], 0, 9, true, [], 5, 3⟩ 3 none 0).2.1.dnsNames
          = "cn" :: ["cn", "a"]
        ∧ (createCertificate 0 1 true "cn" none (some ["cn", "a"]) none
            ⟨5, "i", [], [], [], 0, 9, true, [], 5, 3⟩ 3 none 0).2.1.dnsNames.length
          = (["cn", "a"] : List String).length + 1
        ∧ ("cn" ∈ (["cn", "a"] : List String) →
            2 ≤ (createCertificate 0 1 true "cn" none (some ["cn", "a"]) none
              ⟨5, "i", [], [], [], 0, 9, true, [], 5, 3⟩ 3 none 0).2.1.dnsNames.count "cn")
        ∧ (createCertificate 0 1 true "cn" none none none
            ⟨5, "i", [], [], [], 0, 9, true, [], 5, 3⟩ 3 none 0).2.1.dnsNames = ["cn"]) :=
  ⟨by decide,
   createCertificate_dns_policy 0 1 true "cn" none none
     ⟨5, "i", [], [], [], 0, 9, true, [], 5, 3⟩ 3 none 0 ["cn", "a"] (by decide)⟩

/-- C8: `EnsureCA` with `forceRenew = false` is idempotent — on a store
lacking the bundle it performs exactly one creation (one store write,
`wasModified = true`), and a second call with identical arguments
performs zero further writes, leaves the state (hence the stored
certificate bytes) identical, and reports `wasModified = false`. -/
theorem createCASecret_idempotent (now dur : Nat) (name cn : String) (st : St)
    (h : getSec st.store name = none) :
    (createCASecret now dur false name cn st).1 = Except.ok true
      ∧ (createCASecret now dur false name cn st).2.writes = st.writes + 1
      ∧ createCASecret now dur false name cn ((createCASecret now dur false name cn st).2)
        = (Except.ok false, (createCASecret now dur false name cn st).2) := by
  refine ⟨by simp [createCASecret, h], by simp [createCASecret, h], ?_⟩
  simp [createCASecret, h, getSec_setSec_self, addBackupLabelToSecretObj]

/-- Witness for C8 on the empty store. -/
theorem createCASecret_idempotent_witness :
    getSec (St.mk [] 0 0).store serverCACerts = none
      ∧ ((createCASecret 0 1 false serverCACerts serverCACertifcateCN ⟨[], 0, 0⟩).1
          = Except.ok true
        ∧ (createCASecret 0 1 false serverCACerts serverCACertifcateCN ⟨[], 0, 0⟩).2.writes
          = (St.mk [] 0 0).writes + 1
        ∧ createCASecret 0 1 false serverCACerts serverCACertifcateCN
            ((createCASecret 0 1 false serverCACerts serverCACertifcateCN ⟨[], 0, 0⟩).2)
          = (Except.ok false,
             (createCASecret 0 1 false serverCACerts serverCACertifcateCN ⟨[], 0, 0⟩).2)) :=
  ⟨rfl, createCASecret_idempotent 0 1 serverCACerts serverCACertifcateCN ⟨[], 0, 0⟩ rfl⟩

/-- C3: renewing an existing CA bundle (forceRenew = true) prepends the
new CA certificate's PEM encoding to the entire previous chain (old
entries retained, newest first, so the chain then holds at least two
blocks), replaces the stored active certificate and key with the new
values (the new certificate carrying the fresh serial drawn at renewal
time), and reports `wasModified = true` with one store write. -/
theorem createCASecret_renew_prepends_chain (now dur : Nat) (name cn : String) (st : St)
    (sec : Secret) (b : Block) (h : getSec st.store name = some sec)
    (hk : sec.tlsKey.head? = some b) (hchain : sec.tlsCrt ≠ []) :
    ∃ sec' cert key,
      (createCASecret now dur true name cn st).1 = Except.ok true
        ∧ getSec ((createCASecret now dur true name cn st).2).store name = some sec'
        ∧ sec'.tlsCrt = certBlock cert :: sec.tlsCrt
        ∧ sec'.caCrt = [certBlock cert]
        ∧ sec'.tlsKey = [keyBlock key]
        ∧ cert.serial = st.gen
        ∧ 2 ≤ sec'.tlsCrt.length
        ∧ (createCASecret now dur true name cn st).2.writes = st.writes + 1 := by
  rw [createCASecret_renew_eq now dur name cn st sec b h hk]
  refine ⟨_, (createCACertificate now dur cn (parsePKCS1 b.der) st.gen).2.1,
    (createCACertificate now dur cn (parsePKCS1 b.der) st.gen).1,
    rfl, getSec_setSec_self _ _ _, rfl, rfl, rfl, rfl, ?_, rfl⟩
  have : 0 < sec.tlsCrt.length := List.length_pos.mpr hchain
  simp only [List.length_cons]
  omega

/-- Concrete one-block CA bundle used by the C3 witness. -/
def sec3w : Secret :=
  ⟨[certBlock ⟨0, "c", [], [], [], 0, 9, true, [], 0, 1⟩],
   [certBlock ⟨0, "c", [], [], [], 0, 9, true, [], 0, 1⟩], [keyBlock 1], []⟩

/-- Concrete store state used by the C3 witness. -/
def st3w : St := ⟨[(serverCACerts, sec3w)], 5, 0⟩

/-- Witness for C3 on a store holding a one-block CA bundle. -/
theorem createCASecret_renew_prepends_chain_witness :
    ∃ sec' cert key,
      (createCASecret 0 1 true serverCACerts "c" st3w).1 = Except.ok true
        ∧ getSec ((createCASecret 0 1 true serverCACerts "c" st3w).2).store serverCACerts
          = some sec'
        ∧ sec'.tlsCrt = certBlock cert :: sec3w.tlsCrt
        ∧ sec'.caCrt = [certBlock cert]
        ∧ sec'.tlsKey = [keyBlock key]
        ∧ cert.serial = st3w.gen
        ∧ 2 ≤ sec'.tlsCrt.length
        ∧ (createCASecret 0 1 true serverCACerts "c" st3w).2.writes = st3w.writes + 1 :=
  createCASecret_renew_prepends_chain 0 1 serverCACerts "c" st3w sec3w (keyBlock 1)
    rfl rfl (by decide)

/-- C4: for a present server-role leaf processed with forceRenew = false
whose stored certificate parses, renewal occurs iff some required SAN is
absent from the certificate's DNS names: when every required name is
present the call is a no-op (state unchanged, so stored bytes and serial
are unchanged and nothing is written); when a name is missing, a new
certificate is issued whose DNS names contain every required name and
whose serial differs from the prior one, with one store write. -/
theorem createCertSecret_san_drift (now dur : Nat) (cn : String)
    (ou ips : Option (List String)) (st : St) (sec casec : Secret)
    (b cb ckb kb : Block) (sc cac : Cert) (cak : Nat) (ds : List String)
    (hget : getSec st.store serverCerts = some sec)
    (hhead : sec.tlsCrt.head? = some b)
    (hparse : parseCert b.der = some sc)
    (hlabel : backupLabel ∈ sec.labels)
    (hcaget : getSec st.store serverCACerts = some casec)
    (hcahead : casec.tlsCrt.head? = some cb)
    (hcaparse : parseCert cb.der = some cac)
    (hcakhead : casec.tlsKey.head? = some ckb)
    (hcakparse : parsePKCS1 ckb.der = some cak)
    (hkb : sec.tlsKey.head? = some kb)
    (hfresh : sc.serial < st.gen) :
    ((∀ d ∈ ds, d ∈ sc.dnsNames) →
      createCertSecret now dur false serverCerts true cn ou (some ds) ips st
        = (Except.ok (), st))
    ∧ ((∃ d ∈ ds, d ∉ sc.dnsNames) →
      ∃ sec' c',
        (createCertSecret now dur false serverCerts true cn ou (some ds) ips st).1
          = Except.ok ()
        ∧ getSec ((createCertSecret now dur false serverCerts true cn ou
            (some ds) ips st).2).store serverCerts = some sec'
        ∧ sec'.tlsCrt = [certBlock c']
        ∧ (∀ d ∈ ds, d ∈ c'.dnsNames)
        ∧ c'.serial ≠ sc.serial
        ∧ ((createCertSecret now dur false serverCerts true cn ou
            (some ds) ips st).2).writes = st.writes + 1) := by
  have hca : getCA st true = Except.ok (cac, cak, [cb]) :=
    getCA_eq st true casec cb ckb cac cak (by simpa using hcaget)
      hcahead hcaparse hcakhead hcakparse
  constructor
  · intro hall
    simp [createCertSecret, hget, hhead, hparse, addBackupLabelToSecretObj, hlabel]
    intro x hx hnx
    exact absurd (hall x hx) hnx
  · rintro ⟨d0, hd0, hmem⟩
    obtain ⟨e, es, rfl⟩ : ∃ e es, ds = e :: es := by
      cases ds with
      | nil => exact absurd hd0 (List.not_mem_nil d0)
      | cons e es => exact ⟨e, es, rfl⟩
    have hex : ∃ x ∈ e :: es, x ∉ sc.dnsNames := ⟨d0, hd0, hmem⟩
    have heq : createCertSecret now dur false serverCerts true cn ou (some (e :: es)) ips st
        = (Except.ok (),
           { store := setSec st.store serverCerts
               { sec with
                 caCrt := [cb],
                 tlsCrt := [certBlock (createCertificate now dur true cn ou
                   (some (e :: es)) ips cac cak (parsePKCS1 kb.der) st.gen).2.1],
                 tlsKey := [keyBlock (createCertificate now dur true cn ou
                   (some (e :: es)) ips cac cak (parsePKCS1 kb.der) st.gen).1] },
             gen := (createCertificate now dur true cn ou (some (e :: es)) ips cac cak
               (parsePKCS1 kb.der) st.gen).2.2,
             writes := st.writes + 1 }) := by
      simp [createCertSecret, hget, hhead, hparse, hca, hkb]
      intro he hes
      obtain ⟨x, hx, hnx⟩ := hex
      rcases List.mem_cons.mp hx with rfl | hx'
      · exact absurd he hnx
      · exact absurd (hes x hx') hnx
    rw [heq]
    refine ⟨_, (createCertificate now dur true cn ou (some (e :: es)) ips cac cak
      (parsePKCS1 kb.der) st.gen).2.1, rfl, getSec_setSec_self _ _ _, rfl, ?_, ?_, rfl⟩
    · intro d hd
      have hdns : (createCertificate now dur true cn ou (some (e :: es)) ips cac cak
          (parsePKCS1 kb.der) st.gen).2.1.dnsNames = cn :: e :: es := by
        simp [createCertificate]
      rw [hdns]
      exact List.mem_cons_of_mem _ hd
    · have hser : (createCertificate now dur true cn ou (some (e :: es)) ips cac cak
          (parsePKCS1 kb.der) st.gen).2.1.serial = st.gen := rfl
      rw [hser]
      omega

/-- Concrete server CA certificate for the C4 witness. -/
def cac4w : Cert := ⟨0, "ca", [], [], [], 0, 99, true, [], 0, 1⟩

/-- Concrete server CA bundle for the C4 witness. -/
def casec4w : Secret := ⟨[certBlock cac4w], [certBlock cac4w], [keyBlock 1], [backupLabel]⟩

/-- Concrete stored server leaf certificate for the C4 witness (DNS
names cover "a" but not "b"). -/
def sc4w : Cert := ⟨1, "cn", [], ["cn", "a"], [], 0, 9, false, [], 0, 2⟩

/-- Concrete server leaf bundle for the C4 witness. -/
def sec4w : Secret := ⟨[certBlock cac4w], [certBlock sc4w], [keyBlock 2], [backupLabel]⟩

/-- Concrete store for the C4 witness. -/
def st4w : St := ⟨[(serverCACerts, casec4w), (serverCerts, sec4w)], 5, 0⟩

/-- Witness for C4: requiring ["a","b"] against a stored leaf covering
only {"cn","a"} issues a fresh certificate covering both, with a new
serial. -/
theorem createCertSecret_san_drift_witness :
    ∃ sec' c',
      (createCertSecret 0 1 false serverCerts true "cn" none (some ["a", "b"]) none st4w).1
        = Except.ok ()
      ∧ getSec ((createCertSecret 0 1 false serverCerts true "cn" none
          (some ["a", "b"]) none st4w).2).store serverCerts = some sec'
      ∧ sec'.tlsCrt = [certBlock c']
      ∧ (∀ d ∈ (["a", "b"] : List String), d ∈ c'.dnsNames)
      ∧ c'.serial ≠ sc4w.serial
      ∧ ((createCertSecret 0 1 false serverCerts true "cn" none
          (some ["a", "b"]) none st4w).2).writes = st4w.writes + 1 :=
  (createCertSecret_san_drift 0 1 "cn" none none st4w sec4w casec4w
    (certBlock sc4w) (certBlock cac4w) (keyBlock 1) (keyBlock 2) sc4w cac4w 1
    ["a", "b"] rfl rfl rfl (by decide) rfl rfl rfl rfl rfl rfl (by decide)).2
    (by decide)

/-- Concrete CA certificate for the C5 failing inputs. -/
def ca5 : Cert := ⟨0, "c", [], [], [], 0, 9, true, [], 0, 1⟩

/-- C5 failing input (a): a present CA bundle whose stored `tls.key`
bytes contain no decodable PEM block. -/
def sec5a : Secret := ⟨[certBlock ca5], [certBlock ca5], [], []⟩

/-- Store holding the C5 failing input (a). -/
def st5a : St := ⟨[(serverCACerts, sec5a)], 3, 0⟩

/-- C5 failing input (b): a present server leaf whose stored `tls.crt`
holds a PEM block whose certificate bytes fail x509 parsing. -/
def sec5b : Secret := ⟨[certBlock ca5], [⟨"CERTIFICATE", Der.badDer 0⟩], [keyBlock 2], []⟩

/-- Store holding the C5 failing input (b). -/
def st5b : St := ⟨[(serverCerts, sec5b)], 3, 0⟩

/-- C5: contrary to the claim, the Ensure operations do fail fatally on
some malformed stored inputs.  (a) Renewing a CA whose stored key bytes
hold no decodable PEM block dereferences the nil block returned by
`pem.Decode` (`block.Bytes` on line 140–141) — a panic, modelled as
`RunErr.nilDeref`.  (b) The non-forced drift check on a server leaf
whose certificate block fails x509 parsing sets renewal but then
iterates over the non-empty required DNS list calling
`slices.Contains(serverCrt.DNSNames, ...)` on the nil `serverCrt` — a
panic.  The claim holds only when the malformation leaves a decodable
PEM block (key case) or the required DNS list is empty (cert case). -/
theorem ensure_malformed_input_panics :
    (createCASecret 0 1 true serverCACerts serverCACertifcateCN st5a).1
        = Except.error RunErr.nilDeref
      ∧ (createCertSecret 0 1 false serverCerts true serverCertificateCN none
          (some ["h"]) none st5b).1 = Except.error RunErr.nilDeref := by
  exact ⟨rfl, rfl⟩

/-- First (active) CA certificate of the two-block issuer chain used for C6. -/
def ca6a : Cert := ⟨0, "ca0", [], [], [], 0, 9, true, [], 0, 1⟩

/-- Second (older) CA certificate of the two-block issuer chain used for C6. -/
def ca6b : Cert := ⟨7, "ca1", [], [], [], 0, 9, true, [], 7, 3⟩

/-- Issuer CA bundle with a two-block chain, for C6. -/
def casec6 : Secret := ⟨[certBlock ca6a], [certBlock ca6a, certBlock ca6b], [keyBlock 1], []⟩

/-- Store holding the C6 issuer bundle and no leaf. -/
def st6 : St := ⟨[(serverCACerts, casec6)], 10, 0⟩

/-- Counterexample to C6: issuing a leaf against a CA whose chain holds
two blocks stores only the first block in the leaf's CA-chain field, not
the issuer's entire chain. -/
theorem leaf_chain_copy_cex :
    ((getSec ((createCertSecret 0 1 false serverCerts true "cn" none (some ["h"]) none
        st6).2).store serverCerts).map Secret.caCrt) = some [certBlock ca6a]
      ∧ [certBlock ca6a] ≠ casec6.tlsCrt := by
  exact ⟨rfl, by decide⟩

/-- C6 (amended): for every leaf bundle created or renewed, the stored
CA-chain field equals exactly the first PEM block of the issuing CA
bundle's chain at issuance time (the active CA certificate,
byte-identical); subsequent entries of the issuer's chain are not
copied.  The first conjunct settles the creation path (leaf absent); the
second settles the renewal path (leaf present, renewal forced), which
overwrites `ca.crt` with the same first-block-only `caCertBytes`. -/
theorem createCertSecret_copies_first_ca_block (now dur : Nat) (name : String)
    (isServer : Bool) (cn : String) (ou dns ips : Option (List String)) (st : St)
    (casec : Secret) (b1 b2 : Block) (cac : Cert) (cak : Nat)
    (hcaget : getSec st.store (if isServer then serverCACerts else clientCACerts) = some casec)
    (hhead : casec.tlsCrt.head? = some b1) (hparse : parseCert b1.der = some cac)
    (hkhead : casec.tlsKey.head? = some b2) (hkparse : parsePKCS1 b2.der = some cak) :
    (getSec st.store name = none →
      (createCertSecret now dur false name isServer cn ou dns ips st).1 = Except.ok ()
        ∧ ∃ sec', getSec ((createCertSecret now dur false name isServer cn ou dns ips
            st).2).store name = some sec'
          ∧ sec'.caCrt = [b1])
    ∧ (∀ sec kb, getSec st.store name = some sec → sec.tlsKey.head? = some kb →
      (createCertSecret now dur true name isServer cn ou dns ips st).1 = Except.ok ()
        ∧ ∃ sec', getSec ((createCertSecret now dur true name isServer cn ou dns ips
            st).2).store name = some sec'
          ∧ sec'.caCrt = [b1]) := by
  have hca := getCA_eq st isServer casec b1 b2 cac cak hcaget hhead hparse hkhead hkparse
  constructor
  · intro habsent
    rw [createCertSecret_absent_eq now dur name isServer cn ou dns ips st cac cak [b1]
      habsent hca]
    exact ⟨rfl, _, getSec_setSec_self _ _ _, rfl⟩
  · intro sec kb hget hkb
    rw [createCertSecret_forceRenew_eq now dur name isServer cn ou dns ips st sec cac cak
      [b1] kb hget hca hkb]
    exact ⟨rfl, _, getSec_setSec_self _ _ _, rfl⟩

/-- Pre-existing server leaf bundle for the renewal half of the C6 witness. -/
def leaf6w : Secret := ⟨[certBlock ca6b], [certBlock ⟨3, "cn", [], ["h"], [], 0, 9,
  false, [], 7, 2⟩], [keyBlock 2], []⟩

/-- Store for the renewal half of the C6 witness: the two-block-chain CA
plus a present server leaf. -/
def st6r : St := ⟨[(serverCACerts, casec6), (serverCerts, leaf6w)], 10, 0⟩

/-- Witness for the amended C6 on the two-block-chain store: the
creation path (leaf absent in `st6`) and the renewal path (leaf present
in `st6r`) both store exactly the issuer chain's first block. -/
theorem createCertSecret_copies_first_ca_block_witness :
    ((createCertSecret 0 1 false serverCerts true "cn" none (some ["h"]) none st6).1
        = Except.ok ()
      ∧ ∃ sec', getSec ((createCertSecret 0 1 false serverCerts true "cn" none
          (some ["h"]) none st6).2).store serverCerts = some sec'
        ∧ sec'.caCrt = [certBlock ca6a])
    ∧ ((createCertSecret 0 1 true serverCerts true "cn" none (some ["h"]) none st6r).1
        = Except.ok ()
      ∧ ∃ sec', getSec ((createCertSecret 0 1 true serverCerts true "cn" none
          (some ["h"]) none st6r).2).store serverCerts = some sec'
        ∧ sec'.caCrt = [certBlock ca6a]) :=
  ⟨(createCertSecret_copies_first_ca_block 0 1 serverCerts true "cn" none (some ["h"])
      none st6 casec6 (certBlock ca6a) (keyBlock 1) ca6a 1 rfl rfl rfl rfl rfl).1 rfl,
   (createCertSecret_copies_first_ca_block 0 1 serverCerts true "cn" none (some ["h"])
      none st6r casec6 (certBlock ca6a) (keyBlock 1) ca6a 1 rfl rfl rfl rfl rfl).2
     leaf6w (keyBlock 2) rfl rfl⟩

theorem createCASecret_false_shape (now dur : Nat) (n cn : String) (st : St) :
    ∃ b st', createCASecret now dur false n cn st = (Except.ok b, st')
      ∧ ∀ m, m ≠ n → getSec st'.store m = getSec st.store m := by
  cases hg : getSec st.store n with
  | none =>
    rw [createCASecret_absent now dur n cn st hg]
    exact ⟨true, _, rfl, fun m hm => getSec_setSec_ne _ _ hm⟩
  | some sec =>
    rw [createCASecret_present_norenew now dur n cn st sec hg]
    refine ⟨false, _, rfl, fun m hm => ?_⟩
    unfold addBackupLabelToSecretObj
    by_cases hl : backupLabel ∈ sec.labels
    · simp [hl]
    · simp [hl, getSec_setSec_ne _ _ hm]

/-- C7 (amended): when host discovery fails, the orchestration pass
aborts with an error before any LEAF certificate material is written:
the server-leaf and grafana-leaf bundles are untouched.  (The CA bundles
are ensured earlier in the same pass and may already have been
written.) -/
theorem host_discovery_failure_aborts_before_leaves (now dur : Nat) (svc : String)
    (st : St) :
    (∃ e, (CreateObservabilityCerts now dur true svc none st).1 = Except.error e)
      ∧ getSec ((CreateObservabilityCerts now dur true svc none st).2).store serverCerts
        = getSec st.store serverCerts
      ∧ getSec ((CreateObservabilityCerts now dur true svc none st).2).store grafanaCerts
        = getSec st.store grafanaCerts := by
  obtain ⟨b1, st1, h1, p1⟩ :=
    createCASecret_false_shape now dur serverCACerts serverCACertifcateCN st
  obtain ⟨b2, st2, h2, p2⟩ :=
    createCASecret_false_shape now dur clientCACerts clientCACertificateCN st1
  have hrun : CreateObservabilityCerts now dur true svc none st
      = (Except.error RunErr.hostDiscovery, st2) := by
    simp only [CreateObservabilityCerts, h1, h2, getHosts]
    rfl
  rw [hrun]
  refine ⟨⟨_, rfl⟩, ?_, ?_⟩
  · rw [p2 _ name_ne_sC_cCA, p1 _ name_ne_sC_sCA]
  · rw [p2 _ name_ne_g_cCA, p1 _ name_ne_g_sCA]

/-- Counterexample to C7 as stated: on the empty store with failing host
discovery, the pass aborts — but only after both CA bundles have been
created and written (two store writes, server CA present). -/
theorem ca_written_before_hosts_cex :
    (CreateObservabilityCerts 0 1 true "svc" none ⟨[], 0, 0⟩).1
        = Except.error RunErr.hostDiscovery
      ∧ (getSec ((CreateObservabilityCerts 0 1 true "svc" none ⟨[], 0, 0⟩).2).store
          serverCACerts).isSome = true
      ∧ ((CreateObservabilityCerts 0 1 true "svc" none ⟨[], 0, 0⟩).2).writes = 2 := by
  exact ⟨rfl, rfl, rfl⟩

theorem createCASecret_create_effects (now dur : Nat) (name cn : String) (st : St)
    (h : getSec st.store name = none) :
    ∃ st' c k,
      createCASecret now dur false name cn st = (Except.ok true, st')
        ∧ getSec st'.store name = some ⟨[certBlock c], [certBlock c], [keyBlock k], [backupLabel]⟩
        ∧ c.serial = st.gen
        ∧ st'.gen = st.gen + 2
        ∧ ∀ m, m ≠ name → getSec st'.store m = getSec st.store m := by
  rw [createCASecret_absent now dur name cn st h]
  exact ⟨_, _, _, rfl, getSec_setSec_self _ _ _, rfl, rfl,
    fun m hm => getSec_setSec_ne _ _ hm⟩

theorem createCertSecret_renew_effects (now dur : Nat) (name : String) (isServer : Bool)
    (cn : String) (ou dns ips : Option (List String)) (st : St) (sec : Secret)
    (cac : Cert) (cak : Nat) (caBytes : List Block) (kb : Block)
    (hget : getSec st.store name = some sec)
    (hca : getCA st isServer = Except.ok (cac, cak, caBytes))
    (hkb : sec.tlsKey.head? = some kb) :
    ∃ st' c k,
      createCertSecret now dur true name isServer cn ou dns ips st = (Except.ok (), st')
        ∧ getSec st'.store name
          = some { sec with caCrt := caBytes, tlsCrt := [certBlock c], tlsKey := [keyBlock k] }
        ∧ c.serial = st.gen
        ∧ c.issuerSerial = cac.serial
        ∧ ∀ m, m ≠ name → getSec st'.store m = getSec st.store m := by
  rw [createCertSecret_forceRenew_eq now dur name isServer cn ou dns ips st sec cac cak
    caBytes kb hget hca hkb]
  exact ⟨_, _, _, rfl, getSec_setSec_self _ _ _, rfl, rfl,
    fun m hm => getSec_setSec_ne _ _ hm⟩

/-- C10: in an orchestration pass in which the server CA bundle is
created (`wasModified = true`), the server leaf — though present, with a
certificate that parses and whose DNS names already cover every required
hostname — is forcibly renewed in the same pass: its stored certificate
is replaced by one with a fresh serial, signed by the CA established
earlier in the pass (`issuerSerial` = the new server CA's serial).  The
same holds for the client CA and the grafana leaf. -/
theorem pass_renews_leaves_after_ca_creation (now dur : Nat) (svc : String) (st : St)
    (ssec gsec : Secret) (sb skb gkb : Block) (sc : Cert)
    (hsca : getSec st.store serverCACerts = none)
    (hcca : getSec st.store clientCACerts = none)
    (hs : getSec st.store serverCerts = some ssec)
    (hshead : ssec.tlsCrt.head? = some sb)
    (hsparse : parseCert sb.der = some sc)
    (hcover : svc ∈ sc.dnsNames)
    (hskey : ssec.tlsKey.head? = some skb)
    (hg : getSec st.store grafanaCerts = some gsec)
    (hgkey : gsec.tlsKey.head? = some gkb)
    (hfresh : sc.serial < st.gen) :
    (CreateObservabilityCerts now dur false svc none st).1 = Except.ok ()
      ∧ (∃ sec1 c1, getSec ((CreateObservabilityCerts now dur false svc none
            st).2).store serverCerts = some sec1
          ∧ sec1.tlsCrt = [certBlock c1]
          ∧ c1.serial ≠ sc.serial
          ∧ c1.issuerSerial = st.gen)
      ∧ (∃ sec2 c2, getSec ((CreateObservabilityCerts now dur false svc none
            st).2).store grafanaCerts = some sec2
          ∧ sec2.tlsCrt = [certBlock c2]
          ∧ c2.issuerSerial = st.gen + 2) := by
  obtain ⟨st1, cA, kA, h1run, h1get, h1ser, h1gen, h1pres⟩ :=
    createCASecret_create_effects now dur serverCACerts serverCACertifcateCN st hsca
  obtain ⟨st2, cB, kB, h2run, h2get, h2ser, h2gen, h2pres⟩ :=
    createCASecret_create_effects now dur clientCACerts clientCACertificateCN st1
      (by rw [h1pres _ (Ne.symm name_ne_sCA_cCA)]; exact hcca)
  have hsget2 : getSec st2.store serverCerts = some ssec := by
    rw [h2pres _ name_ne_sC_cCA, h1pres _ name_ne_sC_sCA]; exact hs
  have hcaA2 : getSec st2.store serverCACerts
      = some ⟨[certBlock cA], [certBlock cA], [keyBlock kA], [backupLabel]⟩ := by
    rw [h2pres _ name_ne_sCA_cCA]; exact h1get
  have hcaA : getCA st2 true = Except.ok (cA, kA, [certBlock cA]) :=
    getCA_eq st2 true ⟨[certBlock cA], [certBlock cA], [keyBlock kA], [backupLabel]⟩
      (certBlock cA) (keyBlock kA) cA kA (by simpa using hcaA2) rfl rfl rfl rfl
  obtain ⟨st3, c3, k3, h3run, h3get, h3ser, h3iss, h3pres⟩ :=
    createCertSecret_renew_effects now dur serverCerts true serverCertificateCN none
      (some [svc]) none st2 ssec cA kA [certBlock cA] skb hsget2 hcaA hskey
  have hgget3 : getSec st3.store grafanaCerts = some gsec := by
    rw [h3pres _ name_ne_g_sC, h2pres _ name_ne_g_cCA, h1pres _ name_ne_g_sCA]; exact hg
  have hcaB3 : getSec st3.store clientCACerts
      = some ⟨[certBlock cB], [certBlock cB], [keyBlock kB], [backupLabel]⟩ := by
    rw [h3pres _ (Ne.symm name_ne_sC_cCA)]; exact h2get
  have hcaB : getCA st3 false = Except.ok (cB, kB, [certBlock cB]) :=
    getCA_eq st3 false ⟨[certBlock cB], [certBlock cB], [keyBlock kB], [backupLabel]⟩
      (certBlock cB) (keyBlock kB) cB kB (by simpa using hcaB3) rfl rfl rfl rfl
  obtain ⟨st4, c4, k4, h4run, h4get, h4ser, h4iss, h4pres⟩ :=
    createCertSecret_renew_effects now dur grafanaCerts false grafanaCertificateCN none
      none none st3 gsec cB kB [certBlock cB] gkb hgget3 hcaB hgkey
  have hrun : CreateObservabilityCerts now dur false svc none st = (Except.ok (), st4) := by
    simp only [CreateObservabilityCerts, h1run, h2run, getHosts, Bool.false_eq_true,
      if_false, h3run, h4run]
  rw [hrun]
  refine ⟨rfl,
    ⟨{ ssec with
       caCrt := [certBlock cA],
       tlsCrt := [certBlock c3],
       tlsKey := [keyBlock k3] }, c3, ?_, rfl, ?_, ?_⟩,
    ⟨{ gsec with
       caCrt := [certBlock cB],
       tlsCrt := [certBlock c4],
       tlsKey := [keyBlock k4] }, c4, h4get, rfl, ?_⟩⟩
  · rw [h4pres _ (Ne.symm name_ne_g_sC)]; exact h3get
  · rw [h3ser, h2gen, h1gen]; omega
  · rw [h3iss, h1ser]
  · rw [h4iss, h2ser, h1gen]

/-- Server CA certificate stored in the C10 witness's leaf bundles'
issuer fields (the pre-pass leaf, issued by some prior CA). -/
def sc10w : Cert := ⟨1, "cn", [], ["svc", "x"], [], 0, 9, false, [], 0, 2⟩

/-- Pre-pass server leaf bundle for the C10 witness: present, parses,
and its DNS names already cover the required host "svc". -/
def ssec10w : Secret := ⟨[], [certBlock sc10w], [keyBlock 2], [backupLabel]⟩

/-- Pre-pass grafana leaf bundle for the C10 witness. -/
def gsec10w : Secret := ⟨[], [certBlock ⟨2, "g", [], [], [], 0, 9, false, [], 0, 4⟩],
  [keyBlock 4], [backupLabel]⟩

/-- Store for the C10 witness: both CA bundles absent, both leaves present. -/
def st10w : St := ⟨[(serverCerts, ssec10w), (grafanaCerts, gsec10w)], 6, 0⟩

/-- Witness for C10 on a concrete store with both CAs absent and both
leaves present and SAN-covered. -/
theorem pass_renews_leaves_after_ca_creation_witness :
    (CreateObservabilityCerts 0 1 false "svc" none st10w).1 = Except.ok ()
      ∧ (∃ sec1 c1, getSec ((CreateObservabilityCerts 0 1 false "svc" none
            st10w).2).store serverCerts = some sec1
          ∧ sec1.tlsCrt = [certBlock c1]
          ∧ c1.serial ≠ sc10w.serial
          ∧ c1.issuerSerial = st10w.gen)
      ∧ (∃ sec2 c2, getSec ((CreateObservabilityCerts 0 1 false "svc" none
            st10w).2).store grafanaCerts = some sec2
          ∧ sec2.tlsCrt = [certBlock c2]
          ∧ c2.issuerSerial = st10w.gen + 2) :=
  pass_renews_leaves_after_ca_creation 0 1 "svc" st10w ssec10w gsec10w
    (certBlock sc10w) (keyBlock 2) (keyBlock 4) sc10w rfl rfl rfl rfl rfl
    (by decide) rfl rfl rfl (by decide)

end MCO
